import Mathlib

/-!
# Formal model of `texar/losses/rewards.py`

A shallow embedding of the reward-discounting module. Numeric arrays are
modelled as `List ℚ` (rank 1) and `List (List ℚ)` (rank 2, row = batch entry,
inner index = time step); floating-point arithmetic is modelled by exact
rational arithmetic. Fallible code returns `Except RewardsError`; the
constructors mirror the `ValueError`s of the source. The `dtype`
argument of the source only selects a floating-point width and has no
observable effect in the rational model, so it is omitted.

Row-level helpers (`cumprod`, `cumsum`, `discRow`, `scanRow`, `maskRowAux`)
are polymorphic over a commutative ring so that theorems about limits can
instantiate them at `ℝ` while the kernels themselves stay executable at `ℚ`.
-/

namespace TexarRewards

/-- One row of the masking collaborator, with `t` the absolute time index of
the first element of the remaining row: entries whose absolute index is
`≥ L` are zeroed. -/
def maskRowAux {α : Type} [CommRing α] (t L : ℕ) : List α → List α
  | [] => []
  | x :: xs => (if t < L then x else 0) :: maskRowAux (t + 1) L xs

/-- Zero the entries of `row` at or beyond time index `L`. -/
def maskRow {α : Type} [CommRing α] (row : List α) (L : ℕ) : List α :=
  maskRowAux 0 L row

/-- Modelled from the spec: the masking collaborator `mask_sequences` (from
`texar.utils.shapes`, whose source is not part of this module) zeroes every
entry at or beyond the corresponding row's length along the time axis. -/
def mask_sequences (values : List (List ℚ)) (lengths : List ℕ) : List (List ℚ) :=
  (values.zip lengths).map (fun p => maskRow p.1 p.2)

/-- `np.cumprod` of a 1-D array: running products from the front. -/
def cumprod {α : Type} [CommRing α] : List α → List α
  | [] => []
  | x :: xs => x :: (cumprod xs).map (fun y => x * y)

/-- `np.cumprod(xs[:, ::-1], axis=1)[:, ::-1]` on one row, likewise
`tf.cumprod(xs, axis=1, reverse=True)`: suffix products. -/
def revCumprod {α : Type} [CommRing α] (xs : List α) : List α :=
  (cumprod xs.reverse).reverse

/-- `np.cumsum` of a 1-D array: running sums from the front. -/
def cumsum {α : Type} [CommRing α] : List α → List α
  | [] => []
  | x :: xs => x :: (cumsum xs).map (fun y => x + y)

/-- `np.cumsum(xs[:, ::-1], axis=1)[:, ::-1]` on one row, likewise
`tf.cumsum(xs, axis=1, reverse=True)`: suffix sums. -/
def revCumsum {α : Type} [CommRing α] (xs : List α) : List α :=
  (cumsum xs.reverse).reverse

/-- One row of the eager 2-D general path: the in-place backward loop
`disc_reward[:, i] += disc_reward[:, i + 1] * discount` for
`i = T-2, ..., 0` acts independently on each row, computing
`out[T-1] = reward[T-1]` and `out[t] = reward[t] + discount * out[t+1]`. -/
def discRow {α : Type} [CommRing α] (d : α) : List α → List α
  | [] => []
  | x :: xs =>
    match discRow d xs with
    | [] => [x]
    | y :: ys => (x + d * y) :: y :: ys

/-- The accumulator trace of
`tf.scan(fn=lambda acc, cur: cur + discount * acc, elems, initializer=acc)`
restricted to one batch column (the scan acts elementwise on the batch
dimension, so it is fully described by its per-column trace). -/
def scanRow {α : Type} [CommRing α] (d : α) (acc : α) : List α → List α
  | [] => []
  | x :: xs => (x + d * acc) :: scanRow d (x + d * acc) xs

/-- `np.max(sequence_length)` / `tf.reduce_max(sequence_length)`. -/
def maxSeqLen (sl : List ℕ) : ℕ := sl.foldr max 0

/-- Static number of time steps (second shape component) of a rank-2 value. -/
def numCols (m : List (List ℚ)) : ℕ := (m.headD []).length

/-- The failure modes of the module. The first three are the `ValueError`s
raised explicitly by the source (messages: "sequence_length must not be
None for 1D reward.", "tensor_rank can only be 1 or 2.", "reward can only
be 1D or 2D."); `sliceOutOfBounds` is the graph-construction failure of
`reward[:, 1]` on fewer than 2 time steps; `unmodeledGraph` stands for
graph construction on an operand whose rank does not match `tensor_rank`,
whose outcome the spec does not constrain. -/
inductive RewardsError : Type
  | seqLenValueError : RewardsError
  | rankValueErrorTensor : RewardsError
  | rankValueErrorPy : RewardsError
  | sliceOutOfBounds : RewardsError
  | unmodeledGraph : RewardsError
  deriving DecidableEq

/-- `_discount_reward_py_1d`: expand a scalar reward per row across time.
For each row, numpy builds `dmat` with entry `discount` at time `t` when
`t < sequence_length - 1` (signed comparison) and `1` otherwise, takes the
reversed cumulative product, multiplies by the row's scalar reward, and
finally masks positions at or beyond the row's length. -/
def _discount_reward_py_1d (reward : List ℚ) (sequence_length : Option (List ℕ))
    (discount : ℚ) : Except RewardsError (List (List ℚ)) :=
  match sequence_length with
  | none => .error .seqLenValueError
  | some seqLen =>
    let T := maxSeqLen seqLen
    .ok ((reward.zip seqLen).map (fun p =>
      let dmatRow : List ℚ :=
        if discount = 1 then List.replicate T 1
        else revCumprod ((List.range T).map
          (fun (t : ℕ) => if (t : ℤ) < (p.2 : ℤ) - 1 then discount else 1))
      maskRow (dmatRow.map (fun v => v * p.1)) p.2))

/-- `_discount_reward_tensor_1d`: same computation with tensorflow ops. The
mask is `tf.sequence_mask(sequence_length)` (width `T = max length`) shifted
one step left with a zero column appended, so its entry at time `t` is `1`
exactly when `t + 1 < T` and `t + 1 < sequence_length`. -/
def _discount_reward_tensor_1d (reward : List ℚ) (sequence_length : Option (List ℕ))
    (discount : ℚ) : Except RewardsError (List (List ℚ)) :=
  match sequence_length with
  | none => .error .seqLenValueError
  | some seqLen =>
    let T := maxSeqLen seqLen
    .ok ((reward.zip seqLen).map (fun p =>
      let dmatRow : List ℚ :=
        if discount = 1 then List.replicate T 1
        else revCumprod ((List.range T).map
          (fun t => if t + 1 < T ∧ t + 1 < p.2 then discount else 1))
      maskRow (dmatRow.map (fun v => v * p.1)) p.2))

/-- The optional pre-masking shared by the 2-D kernels:
`if sequence_length is not None: reward = mask_sequences(reward, ...)`. -/
def maskOpt (reward : List (List ℚ)) : Option (List ℕ) → List (List ℚ)
  | some sl => mask_sequences reward sl
  | none => reward

/-- `_discount_reward_py_2d`: optional pre-masking, then either the reverse
cumulative sum (`discount == 1`) or the backward recurrence per row. -/
def _discount_reward_py_2d (reward : List (List ℚ)) (sequence_length : Option (List ℕ))
    (discount : ℚ) : List (List ℚ) :=
  let rw := maskOpt reward sequence_length
  if discount = 1 then rw.map revCumsum
  else rw.map (discRow discount)

/-- `_discount_reward_tensor_2d`: optional pre-masking, then either
`tf.cumsum(reward, axis=1, reverse=True)` or a time-major `tf.scan` of
`cur + discount * acc` over the reversed reward, transposed back and
re-reversed — per batch row this is `(scanRow discount 0 row.reverse).reverse`
(the two transposes only change layout). The scan's initializer is
`tf.zeros_like(reward[:, 1])`, whose slice index `1` requires the (masked)
reward to have at least 2 time steps; with fewer, graph construction fails. -/
def _discount_reward_tensor_2d (reward : List (List ℚ)) (sequence_length : Option (List ℕ))
    (discount : ℚ) : Except RewardsError (List (List ℚ)) :=
  let rw := maskOpt reward sequence_length
  if discount = 1 then .ok (rw.map revCumsum)
  else if 2 ≤ numCols rw then
    .ok (rw.map (fun row => (scanRow discount 0 row.reverse).reverse))
  else .error .sliceOutOfBounds

/-- An eager (numpy) reward value together with its rank, as observed by
`np.array(reward).ndim`; ranks other than 1 and 2 are rejected by the
dispatcher, rank 0 and rank 3 represent them. -/
inductive PyReward : Type
  | rank0 : ℚ → PyReward
  | rank1 : List ℚ → PyReward
  | rank2 : List (List ℚ) → PyReward
  | rank3 : List (List (List ℚ)) → PyReward

/-- `np.array(reward).ndim`. -/
def pyRank : PyReward → ℕ
  | .rank0 _ => 0
  | .rank1 _ => 1
  | .rank2 _ => 2
  | .rank3 _ => 3

/-- The eager branch of `discount_reward` (rank read from the value itself;
`tensor_rank` is overwritten and hence ignored). Normalization is a separate
post-step, see `normalizeStep`. -/
def discount_reward_py (reward : PyReward) (sequence_length : Option (List ℕ))
    (discount : ℚ) : Except RewardsError (List (List ℚ)) :=
  match reward with
  | .rank1 r => _discount_reward_py_1d r sequence_length discount
  | .rank2 r => .ok (_discount_reward_py_2d r sequence_length discount)
  | _ => .error .rankValueErrorPy

/-- The deferred (tensor) branch of `discount_reward`: `tensor_rank` selects
the kernel. When `tensor_rank` does not match the operand's actual rank the
source would build tensorflow ops on a mismatched shape; inside the 1-D
kernel the missing-length `ValueError` still fires first, any later behavior
is outside the spec's scope and modelled as a non-validation error. -/
def discount_reward_tensor (reward : PyReward) (sequence_length : Option (List ℕ))
    (discount : ℚ) (tensor_rank : ℕ) : Except RewardsError (List (List ℚ)) :=
  if tensor_rank = 1 then
    match reward with
    | .rank1 r => _discount_reward_tensor_1d r sequence_length discount
    | _ =>
      match sequence_length with
      | none => .error .seqLenValueError
      | some _ => .error .unmodeledGraph
  else if tensor_rank = 2 then
    match reward with
    | .rank2 r => _discount_reward_tensor_2d r sequence_length discount
    | _ => .error .unmodeledGraph
  else .error .rankValueErrorTensor

/-- Whether a result is one of the two input-validation `ValueError`s of the
spec (missing length, invalid rank), as opposed to success or any other
failure mode. -/
def isValidationError {β : Type} : Except RewardsError β → Bool
  | .error .seqLenValueError => true
  | .error .rankValueErrorTensor => true
  | .error .rankValueErrorPy => true
  | _ => false

/-- All entries of a rank-2 value, flattened. -/
def flat (m : List (List ℚ)) : List ℚ := m.flatten

/-- `np.mean(m)` / `tf.nn.moments(m, axes=[0,1])` first component: global
mean over the whole batch-by-time result. -/
def gmean (m : List (List ℚ)) : ℚ := (flat m).sum / (flat m).length

/-- Global population variance over the whole batch-by-time result
(`np.std(m) ** 2`, or the second component of `tf.nn.moments`). -/
def gvariance (m : List (List ℚ)) : ℚ :=
  ((flat m).map (fun x => (x - gmean m) ^ 2)).sum / (flat m).length

/-- The `1e-8` stabilizer added to the standard deviation. -/
def stabilizer : ℚ := 1 / 100000000

/-- The normalization post-step of `discount_reward`:
`(disc_reward - mean) / (std + 1e-8)` with global mean and global population
standard deviation, identical in both execution modes. The standard
deviation `sigma` (an irrational square root in general) is passed in
explicitly and characterized in theorems by `0 ≤ sigma` and
`sigma ^ 2 = gvariance m`. -/
def normalizeStep (sigma : ℚ) (m : List (List ℚ)) : List (List ℚ) :=
  m.map (fun row => row.map (fun x => (x - gmean m) / (sigma + stabilizer)))

/-- Scale every entry of a rank-2 value by `c`. -/
def scaleMat (c : ℚ) (m : List (List ℚ)) : List (List ℚ) :=
  m.map (fun row => row.map (fun x => c * x))

/-- Scale every entry of an eager reward value by `c` (rank preserved). -/
def scalePy (c : ℚ) : PyReward → PyReward
  | .rank0 x => .rank0 (c * x)
  | .rank1 r => .rank1 (r.map (fun x => c * x))
  | .rank2 m => .rank2 (scaleMat c m)
  | .rank3 t => .rank3 (t.map (scaleMat c))

example : _discount_reward_py_2d [[1, 2, 3]] none (1/2) = [[11/4, 7/2, 3]] := by
  norm_num [_discount_reward_py_2d, maskOpt, discRow]

example : _discount_reward_py_2d [[1, 2, 3]] none 1 = [[6, 5, 3]] := by
  norm_num [_discount_reward_py_2d, maskOpt, revCumsum, cumsum]

example : _discount_reward_py_1d [1] (some [3]) (1/2) = .ok [[1/4, 1/2, 1]] := by
  norm_num [_discount_reward_py_1d, maxSeqLen, revCumprod, cumprod, maskRow, maskRowAux,
    List.range_succ]

example : _discount_reward_py_1d [1, 2] (some [3, 2]) 1 = .ok [[1, 1, 1], [2, 2, 0]] := by
  norm_num [_discount_reward_py_1d, maxSeqLen, maskRow, maskRowAux, List.replicate]

example : _discount_reward_tensor_1d [1] (some [3]) (1/2) = .ok [[1/4, 1/2, 1]] := by
  norm_num [_discount_reward_tensor_1d, maxSeqLen, revCumprod, cumprod, maskRow, maskRowAux,
    List.range_succ]

example : _discount_reward_tensor_2d [[1, 2, 3]] none (1/2) = .ok [[11/4, 7/2, 3]] := by
  norm_num [_discount_reward_tensor_2d, maskOpt, numCols, scanRow]

example : _discount_reward_tensor_2d [[5]] none (1/2) =
    .error .sliceOutOfBounds := by
  norm_num [_discount_reward_tensor_2d, maskOpt, numCols]

/-! ## Basic list lemmas -/

lemma headD_eq_getD {α : Type} (l : List α) (a : α) : l.headD a = l.getD 0 a := by
  cases l <;> rfl

lemma headD_reverse {α : Type} (l : List α) (a : α) : l.reverse.headD a = l.getLastD a := by
  rw [List.headD_eq_head?_getD, List.head?_reverse, List.getLastD_eq_getLast?]

lemma getD_map_zip {α β γ : Type} (f : α × β → γ) (l1 : List α) (l2 : List β) (r : ℕ)
    (h1 : r < l1.length) (h2 : r < l2.length) (dc : γ) (da : α) (db : β) :
    ((l1.zip l2).map f).getD r dc = f (l1.getD r da, l2.getD r db) := by
  induction l1 generalizing l2 r with
  | nil => simp at h1
  | cons a l1 ih =>
    cases l2 with
    | nil => simp at h2
    | cons b l2 =>
      cases r with
      | zero => rfl
      | succ r =>
        simpa using ih l2 r (by simpa using h1) (by simpa using h2)

lemma getD_map_lt {α β : Type} (f : α → β) (l : List α) (t : ℕ) (h : t < l.length)
    (da : α) (db : β) : (l.map f).getD t db = f (l.getD t da) := by
  induction l generalizing t with
  | nil => simp at h
  | cons x xs ih =>
    cases t with
    | zero => rfl
    | succ t => simpa using ih t (by simpa using h)

/-! ## Masking lemmas -/

lemma maskRowAux_getD {α : Type} [CommRing α] (L : ℕ) (row : List α) (t i : ℕ) :
    (maskRowAux t L row).getD i 0 = if t + i < L then row.getD i 0 else 0 := by
  induction row generalizing t i with
  | nil => simp [maskRowAux]
  | cons x xs ih =>
    cases i with
    | zero => simp [maskRowAux]
    | succ i =>
      simp only [maskRowAux, List.getD_cons_succ]
      rw [ih (t + 1) i]
      have harith : t + 1 + i = t + (i + 1) := by omega
      rw [harith]

lemma maskRow_getD {α : Type} [CommRing α] (row : List α) (L t : ℕ) :
    (maskRow row L).getD t 0 = if t < L then row.getD t 0 else 0 := by
  simpa using maskRowAux_getD L row 0 t

lemma maskRowAux_length {α : Type} [CommRing α] (L : ℕ) (row : List α) (t : ℕ) :
    (maskRowAux t L row).length = row.length := by
  induction row generalizing t with
  | nil => rfl
  | cons x xs ih => simp [maskRowAux, ih]

lemma maskRow_length {α : Type} [CommRing α] (row : List α) (L : ℕ) :
    (maskRow row L).length = row.length := maskRowAux_length L row 0

/-! ## Cumulative product / sum lemmas -/

lemma cumprod_length {α : Type} [CommRing α] (l : List α) : (cumprod l).length = l.length := by
  induction l with
  | nil => rfl
  | cons x xs ih => simp [cumprod, ih]

lemma cumprod_append_singleton {α : Type} [CommRing α] (x : α) (l : List α) :
    cumprod (l ++ [x]) = cumprod l ++ [l.prod * x] := by
  induction l with
  | nil => simp [cumprod]
  | cons y l ih => simp [cumprod, ih, mul_assoc]

lemma revCumprod_cons {α : Type} [CommRing α] (x : α) (xs : List α) :
    revCumprod (x :: xs) = (xs.prod * x) :: revCumprod xs := by
  simp [revCumprod, cumprod_append_singleton, List.prod_reverse]

lemma revCumprod_length {α : Type} [CommRing α] (xs : List α) :
    (revCumprod xs).length = xs.length := by
  simp [revCumprod, cumprod_length]

lemma revCumprod_getD {α : Type} [CommRing α] (xs : List α) (t : ℕ) (h : t < xs.length) :
    (revCumprod xs).getD t 0 = (xs.drop t).prod := by
  induction xs generalizing t with
  | nil => simp at h
  | cons x xs ih =>
    cases t with
    | zero => simp [revCumprod_cons, mul_comm]
    | succ t =>
      rw [revCumprod_cons, List.getD_cons_succ, List.drop_succ_cons]
      exact ih t (by simpa using h)

lemma cumsum_append_singleton {α : Type} [CommRing α] (x : α) (l : List α) :
    cumsum (l ++ [x]) = cumsum l ++ [l.sum + x] := by
  induction l with
  | nil => simp [cumsum]
  | cons y l ih => simp [cumsum, ih, add_assoc]

lemma revCumsum_cons {α : Type} [CommRing α] (x : α) (xs : List α) :
    revCumsum (x :: xs) = (xs.sum + x) :: revCumsum xs := by
  simp [revCumsum, cumsum_append_singleton, List.sum_reverse]

lemma revCumsum_length {α : Type} [CommRing α] (xs : List α) :
    (revCumsum xs).length = xs.length := by
  induction xs with
  | nil => rfl
  | cons x xs ih => simp [revCumsum_cons, ih]

lemma revCumsum_headD {α : Type} [CommRing α] (xs : List α) :
    (revCumsum xs).headD 0 = xs.sum := by
  cases xs with
  | nil => simp [revCumsum, cumsum]
  | cons x xs => simp [revCumsum_cons, add_comm]

/-! ## Backward-recurrence lemmas -/

lemma discRow_cons {α : Type} [CommRing α] (d x : α) (xs : List α) :
    discRow d (x :: xs) = (x + d * (discRow d xs).headD 0) :: discRow d xs := by
  cases h : discRow d xs <;> simp [discRow, h]

lemma discRow_length {α : Type} [CommRing α] (d : α) (xs : List α) :
    (discRow d xs).length = xs.length := by
  induction xs with
  | nil => rfl
  | cons x xs ih => simp [discRow_cons, ih]

lemma revCumsum_eq_discRow_one {α : Type} [CommRing α] (xs : List α) :
    revCumsum xs = discRow 1 xs := by
  induction xs with
  | nil => rfl
  | cons x xs ih =>
    rw [revCumsum_cons, discRow_cons, ← ih, revCumsum_headD, one_mul, add_comm]

lemma discRow_zero_tail {α : Type} [CommRing α] (d : α) (xs : List α) :
    ∀ (L : ℕ), (∀ s, L ≤ s → xs.getD s 0 = 0) → ∀ t, L ≤ t → (discRow d xs).getD t 0 = 0 := by
  induction xs with
  | nil => intro L _ t _; simp [discRow]
  | cons x xs ih =>
    intro L hz t ht
    rw [discRow_cons]
    cases t with
    | zero =>
      have hL : L = 0 := Nat.le_zero.mp ht
      subst hL
      have hx : x = 0 := by simpa using hz 0 (le_refl 0)
      have hxs : ∀ s, 0 ≤ s → xs.getD s 0 = 0 := by
        intro s _
        simpa using hz (s + 1) (Nat.zero_le _)
      have h0 : (discRow d xs).getD 0 0 = 0 := ih 0 hxs 0 (le_refl 0)
      rw [List.getD_cons_zero, hx, headD_eq_getD, h0, mul_zero, add_zero]
    | succ t =>
      rw [List.getD_cons_succ]
      refine ih (L - 1) ?_ t ?_
      · intro s hs
        simpa using hz (s + 1) (by omega)
      · omega

lemma discRow_getD_rec {α : Type} [CommRing α] (d : α) (xs : List α) (t : ℕ)
    (h : t + 1 < xs.length) :
    (discRow d xs).getD t 0 = xs.getD t 0 + d * (discRow d xs).getD (t + 1) 0 := by
  induction xs generalizing t with
  | nil => simp at h
  | cons x xs ih =>
    cases t with
    | zero =>
      rw [discRow_cons, List.getD_cons_zero, List.getD_cons_zero, List.getD_cons_succ,
        headD_eq_getD]
    | succ t =>
      rw [discRow_cons, List.getD_cons_succ, List.getD_cons_succ, List.getD_cons_succ]
      exact ih t (by simpa using h)

lemma discRow_getD_last {α : Type} [CommRing α] (d : α) (xs : List α) (h : xs ≠ []) :
    (discRow d xs).getD (xs.length - 1) 0 = xs.getD (xs.length - 1) 0 := by
  induction xs with
  | nil => simp at h
  | cons x xs ih =>
    cases xs with
    | nil => simp [discRow]
    | cons y ys =>
      rw [discRow_cons]
      have hlen : (x :: y :: ys).length - 1 = ((y :: ys).length - 1) + 1 := by simp
      rw [hlen, List.getD_cons_succ, List.getD_cons_succ]
      exact ih (by simp)

lemma headD_map_mul {α : Type} [CommRing α] (c : α) (l : List α) :
    (l.map (fun x => c * x)).headD 0 = c * l.headD 0 := by
  cases l <;> simp

lemma discRow_map_mul {α : Type} [CommRing α] (d c : α) (xs : List α) :
    discRow d (xs.map (fun x => c * x)) = (discRow d xs).map (fun x => c * x) := by
  induction xs with
  | nil => rfl
  | cons x xs ih =>
    simp only [List.map_cons, discRow_cons, ih, headD_map_mul]
    congr 1
    ring

lemma maskRowAux_map_mul {α : Type} [CommRing α] (c : α) (L : ℕ) (row : List α) (t : ℕ) :
    maskRowAux t L (row.map (fun x => c * x)) = (maskRowAux t L row).map (fun x => c * x) := by
  induction row generalizing t with
  | nil => rfl
  | cons x xs ih =>
    simp only [List.map_cons, maskRowAux, ih]
    congr 1
    split <;> simp

lemma maskRow_map_mul {α : Type} [CommRing α] (c : α) (row : List α) (L : ℕ) :
    maskRow (row.map (fun x => c * x)) L = (maskRow row L).map (fun x => c * x) :=
  maskRowAux_map_mul c L row 0

/-! ## Scan lemmas: the deferred 2-D recurrence equals the eager one -/

lemma scanRow_append {α : Type} [CommRing α] (d : α) (l1 l2 : List α) (a : α) :
    scanRow d a (l1 ++ l2) = scanRow d a l1 ++ scanRow d ((scanRow d a l1).getLastD a) l2 := by
  induction l1 generalizing a with
  | nil => simp [scanRow]
  | cons x l1 ih =>
    simp only [List.cons_append, scanRow, List.append_eq, ih, List.getLastD_cons]

lemma scanRow_reverse_eq_discRow {α : Type} [CommRing α] (d : α) (xs : List α) :
    (scanRow d 0 xs.reverse).reverse = discRow d xs := by
  induction xs with
  | nil => rfl
  | cons x xs ih =>
    have hacc : (scanRow d 0 xs.reverse).getLastD 0 = (discRow d xs).headD 0 := by
      rw [← headD_reverse, ih]
    rw [List.reverse_cons, scanRow_append, List.reverse_append, hacc]
    simp [scanRow, ih, discRow_cons]

/-! ## Discount-weight lemmas for the 1-D kernels -/

lemma le_maxSeqLen (sl : List ℕ) (L : ℕ) (h : L ∈ sl) : L ≤ maxSeqLen sl := by
  induction sl with
  | nil => simp at h
  | cons a sl ih =>
    rcases List.mem_cons.mp h with rfl | h
    · exact le_max_left _ _
    · exact le_trans (ih h) (le_max_right _ _)

lemma getD_replicate {α : Type} (a da : α) (T t : ℕ) (h : t < T) :
    (List.replicate T a).getD t da = a := by
  induction T generalizing t with
  | zero => omega
  | succ T ih =>
    cases t with
    | zero => rfl
    | succ t =>
      rw [List.replicate_succ, List.getD_cons_succ]
      exact ih t (by omega)

lemma drop_range' (t s k : ℕ) : (List.range' s k).drop t = List.range' (s + t) (k - t) := by
  induction t generalizing s k with
  | zero => simp
  | succ t ih =>
    cases k with
    | zero => simp
    | succ k =>
      rw [List.range'_succ, List.drop_succ_cons, ih (s + 1) k]
      congr 1 <;> omega

lemma prod_if_range' {α : Type} [CommRing α] (d : α) (L : ℕ) (k t : ℕ) :
    ((List.range' t k).map (fun s => if s + 1 < L then d else 1)).prod =
      d ^ (min (L - 1) (t + k) - t) := by
  induction k generalizing t with
  | zero =>
    have h0 : min (L - 1) (t + 0) - t = 0 := by omega
    simp [h0]
  | succ k ih =>
    rw [List.range'_succ, List.map_cons, List.prod_cons, ih (t + 1)]
    by_cases h : t + 1 < L
    · rw [if_pos h]
      have he : min (L - 1) (t + (k + 1)) - t = (min (L - 1) (t + 1 + k) - (t + 1)) + 1 := by
        omega
      rw [he, pow_succ]
      ring
    · rw [if_neg h]
      have h1 : min (L - 1) (t + 1 + k) - (t + 1) = 0 := by omega
      have h2 : min (L - 1) (t + (k + 1)) - t = 0 := by omega
      simp [h1, h2]

lemma weight_core {α : Type} [CommRing α] (d : α) (L T t : ℕ) (hLT : L ≤ T) (ht : t < T) :
    (revCumprod ((List.range T).map (fun s => if s + 1 < L then d else 1))).getD t 0 =
      d ^ (L - 1 - t) := by
  rw [revCumprod_getD _ t (by simp [ht]), ← List.map_drop, List.range_eq_range',
    drop_range', prod_if_range']
  congr 1
  omega

/-- The eager 1-D base row (signed comparison `t < L - 1` over ℤ) agrees with
the plain ℕ comparison `t + 1 < L`. -/
lemma base_py_eq (d : ℚ) (L T : ℕ) :
    ((List.range T).map (fun (s : ℕ) => if (s : ℤ) < (L : ℤ) - 1 then d else 1)) =
      ((List.range T).map (fun s => if s + 1 < L then d else 1)) := by
  apply List.map_congr_left
  intro s _
  by_cases h : s + 1 < L
  · rw [if_pos (by omega), if_pos h]
  · rw [if_neg (by omega), if_neg h]

/-- The deferred 1-D base row (shifted `tf.sequence_mask`) agrees with the
plain comparison `t + 1 < L` whenever `L ≤ T`. -/
lemma base_tensor_eq (d : ℚ) (L T : ℕ) (hLT : L ≤ T) :
    ((List.range T).map (fun s => if s + 1 < T ∧ s + 1 < L then d else 1)) =
      ((List.range T).map (fun s => if s + 1 < L then d else 1)) := by
  apply List.map_congr_left
  intro s _
  by_cases h : s + 1 < L
  · rw [if_pos ⟨by omega, h⟩, if_pos h]
  · rw [if_neg (by tauto), if_neg h]

/-- Entry `t` of the eager 1-D discount matrix row for a row of length `L`:
`discount ^ (L - 1 - t)` (so factor `1` at `t = L - 1` and beyond). -/
lemma dmat_getD (d : ℚ) (L T t : ℕ) (hLT : L ≤ T) (ht : t < T) :
    (if d = 1 then List.replicate T (1 : ℚ)
      else revCumprod ((List.range T).map
        (fun (s : ℕ) => if (s : ℤ) < (L : ℤ) - 1 then d else 1))).getD t 0 = d ^ (L - 1 - t) := by
  split_ifs with hd
  · subst hd
    rw [getD_replicate _ _ _ _ ht, one_pow]
  · rw [base_py_eq, weight_core d L T t hLT ht]

/-! ## Zero-masking of every kernel output (claim C1 support) -/

lemma zipmap_maskRow_getD {β : Type} (g : β × ℕ → List ℚ) (l1 : List β) (db : β)
    (sl : List ℕ) (r t : ℕ) (ht : sl.getD r 0 ≤ t) :
    (((l1.zip sl).map (fun p => maskRow (g p) p.2)).getD r []).getD t 0 = 0 := by
  by_cases h1 : r < l1.length ∧ r < sl.length
  · rw [getD_map_zip (fun p => maskRow (g p) p.2) l1 sl r h1.1 h1.2 [] db 0,
      maskRow_getD, if_neg (by omega)]
  · push_neg at h1
    have hlen : ((l1.zip sl).map (fun p => maskRow (g p) p.2)).length ≤ r := by
      rw [List.length_map, List.length_zip]
      omega
    rw [List.getD_eq_default _ _ hlen]
    simp

lemma mask_sequences_getD_zero (m : List (List ℚ)) (sl : List ℕ) (r t : ℕ)
    (ht : sl.getD r 0 ≤ t) : ((mask_sequences m sl).getD r []).getD t 0 = 0 := by
  exact zipmap_maskRow_getD Prod.fst m [] sl r t ht

/-- The masked 2-D input followed by the backward recurrence keeps every
entry at or beyond the row's length at zero. -/
lemma map_discRow_mask_getD_zero (m : List (List ℚ)) (sl : List ℕ) (d : ℚ) (r t : ℕ)
    (ht : sl.getD r 0 ≤ t) :
    (((mask_sequences m sl).map (discRow d)).getD r []).getD t 0 = 0 := by
  by_cases h1 : r < m.length ∧ r < sl.length
  · have hlen : r < (mask_sequences m sl).length := by
      rw [mask_sequences, List.length_map, List.length_zip]
      omega
    rw [getD_map_lt (discRow d) _ r hlen [] [], mask_sequences,
      getD_map_zip (fun p => maskRow p.1 p.2) m sl r h1.1 h1.2 [] [] 0]
    refine discRow_zero_tail d _ (sl.getD r 0) ?_ t ht
    intro s hs
    rw [maskRow_getD, if_neg (by omega)]
  · push_neg at h1
    have hlen : ((mask_sequences m sl).map (discRow d)).length ≤ r := by
      rw [List.length_map, mask_sequences, List.length_map, List.length_zip]
      omega
    rw [List.getD_eq_default _ _ hlen]
    simp

lemma map_revCumsum_eq_map_discRow_one (m : List (List ℚ)) :
    m.map revCumsum = m.map (discRow 1) := by
  apply List.map_congr_left
  intro row _
  exact revCumsum_eq_discRow_one row

lemma map_scan_eq_map_discRow (m : List (List ℚ)) (d : ℚ) :
    m.map (fun row => (scanRow d 0 row.reverse).reverse) = m.map (discRow d) := by
  apply List.map_congr_left
  intro row _
  exact scanRow_reverse_eq_discRow d row

lemma getD_mem {β : Type} (l : List β) (r : ℕ) (a : β) (h : r < l.length) : l.getD r a ∈ l := by
  induction l generalizing r with
  | nil => simp at h
  | cons x xs ih =>
    cases r with
    | zero => exact List.mem_cons_self x xs
    | succ r => exact List.mem_cons_of_mem x (ih r (by simpa using h))

/-- The eager 2-D kernel's row `r` on the general path is the backward
recurrence of row `r` of the (optionally masked) input. -/
lemma py2d_getD_row (m : List (List ℚ)) (sl : Option (List ℕ)) (d : ℚ) (hd : d ≠ 1)
    (r : ℕ) :
    (_discount_reward_py_2d m sl d).getD r [] = discRow d ((maskOpt m sl).getD r []) := by
  unfold _discount_reward_py_2d
  rw [if_neg hd]
  by_cases hr : r < (maskOpt m sl).length
  · rw [getD_map_lt (discRow d) _ r hr [] []]
  · have hr' := not_lt.mp hr
    rw [List.getD_eq_default _ _ (by simpa using hr'), List.getD_eq_default _ _ hr']
    rfl

/-! ## Claim theorems -/

/-- C1 (masking invariant): for every output of the four discounting kernels
computed with a supplied `sequence_length`, every entry at a time index at or
beyond that row's sequence length is exactly zero, for any discount. -/
theorem C1_masking_invariant (r1 : List ℚ) (m2 : List (List ℚ)) (sl : List ℕ) (d : ℚ)
    (M1 M1t M2t : List (List ℚ)) (r t : ℕ) (ht : sl.getD r 0 ≤ t) :
    (_discount_reward_py_1d r1 (some sl) d = .ok M1 → (M1.getD r []).getD t 0 = 0) ∧
    ((_discount_reward_py_2d m2 (some sl) d).getD r []).getD t 0 = 0 ∧
    (_discount_reward_tensor_1d r1 (some sl) d = .ok M1t → (M1t.getD r []).getD t 0 = 0) ∧
    (_discount_reward_tensor_2d m2 (some sl) d = .ok M2t → (M2t.getD r []).getD t 0 = 0) := by
  refine ⟨?_, ?_, ?_, ?_⟩
  · intro h
    simp only [_discount_reward_py_1d] at h
    rw [← Except.ok.inj h]
    exact zipmap_maskRow_getD
      (fun p => ((if d = 1 then List.replicate (maxSeqLen sl) (1 : ℚ)
        else revCumprod ((List.range (maxSeqLen sl)).map
          (fun (s : ℕ) => if (s : ℤ) < (p.2 : ℤ) - 1 then d else 1))).map
            (fun v => v * p.1)))
      r1 0 sl r t ht
  · unfold _discount_reward_py_2d maskOpt
    split_ifs with hd
    · rw [map_revCumsum_eq_map_discRow_one]
      exact map_discRow_mask_getD_zero m2 sl 1 r t ht
    · exact map_discRow_mask_getD_zero m2 sl d r t ht
  · intro h
    simp only [_discount_reward_tensor_1d] at h
    rw [← Except.ok.inj h]
    exact zipmap_maskRow_getD
      (fun p => ((if d = 1 then List.replicate (maxSeqLen sl) (1 : ℚ)
        else revCumprod ((List.range (maxSeqLen sl)).map
          (fun t => if t + 1 < maxSeqLen sl ∧ t + 1 < p.2 then d else 1))).map
            (fun v => v * p.1)))
      r1 0 sl r t ht
  · intro h
    simp only [_discount_reward_tensor_2d, maskOpt] at h
    split_ifs at h with hd hg
    · rw [← Except.ok.inj h, map_revCumsum_eq_map_discRow_one]
      exact map_discRow_mask_getD_zero m2 sl 1 r t ht
    · rw [← Except.ok.inj h, map_scan_eq_map_discRow]
      exact map_discRow_mask_getD_zero m2 sl d r t ht

theorem C1_masking_invariant_witness :
    ((_discount_reward_py_2d [[1, 2]] (some [1]) (1/2)).getD 0 []).getD 1 0 = 0 ∧
    (([[1, 0]] : List (List ℚ)).getD 0 []).getD 1 0 = 0 := by
  have h := C1_masking_invariant [2] [[1, 2]] [1] (1/2) [[2]] [[2]] [[1, 0]] 0 1
    (by norm_num)
  refine ⟨h.2.1, h.2.2.2 ?_⟩
  norm_num [_discount_reward_tensor_2d, maskOpt, mask_sequences, maskRow, maskRowAux,
    numCols, scanRow]

/-- C2 (backward recurrence of the eager 2-D general path): for `discount ≠ 1`
the output row agrees with the (possibly pre-masked) reward at the last time
index and satisfies `out t = reward t + discount * out (t+1)` at every
earlier index; Scenario D: `[[1,2,3]]` at discount `1/2` gives
`[[2.75, 3.5, 3.0]]`. -/
theorem C2_backward_recurrence (m : List (List ℚ)) (sl : Option (List ℕ)) (d : ℚ)
    (hd : d ≠ 1) (r t : ℕ) :
    (t + 1 < ((maskOpt m sl).getD r []).length →
      ((_discount_reward_py_2d m sl d).getD r []).getD t 0 =
        ((maskOpt m sl).getD r []).getD t 0 +
          d * ((_discount_reward_py_2d m sl d).getD r []).getD (t + 1) 0) ∧
    (((maskOpt m sl).getD r []) ≠ [] →
      ((_discount_reward_py_2d m sl d).getD r []).getD
          (((maskOpt m sl).getD r []).length - 1) 0 =
        ((maskOpt m sl).getD r []).getD (((maskOpt m sl).getD r []).length - 1) 0) ∧
    _discount_reward_py_2d [[1, 2, 3]] none (1/2) = [[11/4, 7/2, 3]] := by
  refine ⟨?_, ?_, ?_⟩
  · intro hlen
    rw [py2d_getD_row m sl d hd r]
    exact discRow_getD_rec d _ t hlen
  · intro hne
    rw [py2d_getD_row m sl d hd r]
    exact discRow_getD_last d _ hne
  · norm_num [_discount_reward_py_2d, maskOpt, discRow]

theorem C2_backward_recurrence_witness :
    ((_discount_reward_py_2d [[1, 2, 3]] none (1/2)).getD 0 []).getD 0 0 =
      ((maskOpt [[1, 2, 3]] none).getD 0 []).getD 0 0 +
        (1/2) * ((_discount_reward_py_2d [[1, 2, 3]] none (1/2)).getD 0 []).getD 1 0 :=
  (C2_backward_recurrence [[1, 2, 3]] none (1/2) (by norm_num) 0 0).1
    (by norm_num [maskOpt])

/-- C3 (1-D closed form): with `sequence_length` supplied and matching the
batch size, the 1-D kernel yields a `batch × max(sequence_length)` matrix
whose row `r` (scalar reward `R`, length `L`) has entry `R * d ^ (L - 1 - t)`
at every `t < L` — in particular `R` itself at `t = L - 1`, the exponent
being `0` — and `0` at every `t ≥ L`; Scenario B: reward `[1.0]`, lengths
`[3]`, discount `0.5` gives row `[0.25, 0.5, 1.0]`. -/
theorem C3_1d_closed_form (reward : List ℚ) (sl : List ℕ) (d : ℚ) (M : List (List ℚ))
    (hB : reward.length = sl.length)
    (hM : _discount_reward_py_1d reward (some sl) d = .ok M) :
    (M.length = reward.length ∧
      (∀ r, r < M.length → (M.getD r []).length = maxSeqLen sl) ∧
      (∀ r t, r < M.length → t < sl.getD r 0 →
        (M.getD r []).getD t 0 = reward.getD r 0 * d ^ (sl.getD r 0 - 1 - t)) ∧
      (∀ r t, sl.getD r 0 ≤ t → (M.getD r []).getD t 0 = 0)) ∧
    _discount_reward_py_1d [1] (some [3]) (1/2) = .ok [[1/4, 1/2, 1]] := by
  simp only [_discount_reward_py_1d] at hM
  have hM' := (Except.ok.inj hM).symm
  constructor
  · subst hM'
    have hlen : ((reward.zip sl).map (fun p =>
        maskRow ((if d = 1 then List.replicate (maxSeqLen sl) (1 : ℚ)
          else revCumprod ((List.range (maxSeqLen sl)).map
            (fun (s : ℕ) => if (s : ℤ) < (p.2 : ℤ) - 1 then d else 1))).map
              (fun v => v * p.1)) p.2)).length = reward.length := by
      rw [List.length_map, List.length_zip, hB, min_self]
    refine ⟨hlen, ?_, ?_, ?_⟩
    · intro r hr
      rw [hlen] at hr
      rw [getD_map_zip _ reward sl r hr (by omega) [] 0 0, maskRow_length,
        List.length_map]
      split_ifs with hdd
      · rw [List.length_replicate]
      · rw [revCumprod_length, List.length_map, List.length_range]
    · intro r t hr htL
      rw [hlen] at hr
      have hrs : r < sl.length := by omega
      have hLT : sl.getD r 0 ≤ maxSeqLen sl :=
        le_maxSeqLen sl _ (getD_mem sl r 0 hrs)
      have htT : t < maxSeqLen sl := by omega
      rw [getD_map_zip _ reward sl r hr hrs [] 0 0, maskRow_getD, if_pos htL,
        getD_map_lt _ _ t ?hb 0 0, dmat_getD d (sl.getD r 0) (maxSeqLen sl) t hLT htT,
        mul_comm]
      case hb =>
        split_ifs with hdd
        · rw [List.length_replicate]
          exact htT
        · rw [revCumprod_length, List.length_map, List.length_range]
          exact htT
    · intro r t ht
      exact zipmap_maskRow_getD
        (fun p => ((if d = 1 then List.replicate (maxSeqLen sl) (1 : ℚ)
          else revCumprod ((List.range (maxSeqLen sl)).map
            (fun (s : ℕ) => if (s : ℤ) < (p.2 : ℤ) - 1 then d else 1))).map
              (fun v => v * p.1)))
        reward 0 sl r t ht
  · norm_num [_discount_reward_py_1d, maxSeqLen, revCumprod, cumprod, maskRow, maskRowAux,
      List.range_succ]

theorem C3_1d_closed_form_witness :
    (([[1/4, 1/2, 1]] : List (List ℚ)).getD 0 []).getD 1 0 = (1 : ℚ) * (1/2) ^ (3 - 1 - 1) := by
  have h := C3_1d_closed_form [1] [3] (1/2) [[1/4, 1/2, 1]] rfl
    (by norm_num [_discount_reward_py_1d, maxSeqLen, revCumprod, cumprod, maskRow,
      maskRowAux, List.range_succ])
  exact h.1.2.2.1 0 1 (by norm_num) (by norm_num)

/-- The deferred 2-D kernel never produces a validation error (its only
failure mode is the slice-index graph error). -/
lemma tensor2d_not_validation (m : List (List ℚ)) (sl : Option (List ℕ)) (d : ℚ) :
    isValidationError (_discount_reward_tensor_2d m sl d) = false := by
  simp only [_discount_reward_tensor_2d]
  split_ifs <;> rfl

/-- The eager 1-D kernel raises exactly when `sequence_length` is absent. -/
lemma py1d_validation (r : List ℚ) (sl : Option (List ℕ)) (d : ℚ) :
    isValidationError (_discount_reward_py_1d r sl d) = true ↔ sl = none := by
  cases sl <;> simp [_discount_reward_py_1d, isValidationError]

/-- The deferred 1-D kernel raises exactly when `sequence_length` is absent. -/
lemma tensor1d_validation (r : List ℚ) (sl : Option (List ℕ)) (d : ℚ) :
    isValidationError (_discount_reward_tensor_1d r sl d) = true ↔ sl = none := by
  cases sl <;> simp [_discount_reward_tensor_1d, isValidationError]

/-- C4 (validation errors, both modes): `discount_reward` raises an
input-validation `ValueError` exactly when a rank-1 selection lacks
`sequence_length` or the selected rank is not 1 or 2 (the rank is the
reward's own dimensionality in eager mode, `tensor_rank` in deferred mode);
an `Except` result carries no partial output alongside a failure. -/
theorem C4_validation_errors (reward : PyReward) (sl : Option (List ℕ)) (d : ℚ)
    (tr : ℕ) :
    (isValidationError (discount_reward_py reward sl d) = true ↔
      (pyRank reward = 1 ∧ sl = none) ∨ (pyRank reward ≠ 1 ∧ pyRank reward ≠ 2)) ∧
    (isValidationError (discount_reward_tensor reward sl d tr) = true ↔
      (tr = 1 ∧ sl = none) ∨ (tr ≠ 1 ∧ tr ≠ 2)) := by
  constructor
  · cases reward with
    | rank0 x => simp [discount_reward_py, pyRank, isValidationError]
    | rank1 r =>
      simp only [discount_reward_py, pyRank]
      rw [py1d_validation]
      simp
    | rank2 m => simp [discount_reward_py, pyRank, isValidationError]
    | rank3 t3 => simp [discount_reward_py, pyRank, isValidationError]
  · by_cases h1 : tr = 1
    · subst h1
      cases reward with
      | rank1 r =>
        have he : discount_reward_tensor (.rank1 r) sl d 1 =
            _discount_reward_tensor_1d r sl d := by
          simp [discount_reward_tensor]
        rw [he, tensor1d_validation]
        simp
      | rank0 x => cases sl <;> simp [discount_reward_tensor, isValidationError]
      | rank2 m => cases sl <;> simp [discount_reward_tensor, isValidationError]
      | rank3 t3 => cases sl <;> simp [discount_reward_tensor, isValidationError]
    · by_cases h2 : tr = 2
      · subst h2
        cases reward with
        | rank2 m => simp [discount_reward_tensor, tensor2d_not_validation]
        | rank0 x => simp [discount_reward_tensor, isValidationError]
        | rank1 r => simp [discount_reward_tensor, isValidationError]
        | rank3 t3 => simp [discount_reward_tensor, isValidationError]
      · simp [discount_reward_tensor, h1, h2, isValidationError]

/-! ## Continuity of the general path in the discount (claim C6 support) -/

lemma discRow_getD_continuous (row : List ℝ) (t : ℕ) :
    Continuous (fun d : ℝ => (discRow d row).getD t 0) := by
  induction row generalizing t with
  | nil => simpa [discRow] using continuous_const
  | cons x xs ih =>
    cases t with
    | zero =>
      simp only [discRow_cons, List.getD_cons_zero, headD_eq_getD]
      exact continuous_const.add (continuous_id.mul (ih 0))
    | succ t =>
      simp only [discRow_cons, List.getD_cons_succ]
      exact ih t

/-- C6 (fast/general path consistency): the `discount == 1` fast path of the
eager 2-D kernel is exactly the backward recurrence evaluated at discount 1,
and consequently (in real arithmetic) each entry of the general-path result
tends to the fast-path entry as the discount tends to 1. -/
theorem C6_fast_path_consistency (m : List (List ℚ)) (sl : Option (List ℕ)) :
    _discount_reward_py_2d m sl 1 = (maskOpt m sl).map (discRow 1) ∧
    ∀ (row : List ℝ) (t : ℕ),
      Filter.Tendsto (fun d : ℝ => (discRow d row).getD t 0) (nhds 1)
        (nhds ((revCumsum row).getD t 0)) := by
  constructor
  · simp only [_discount_reward_py_2d, if_pos rfl]
    exact map_revCumsum_eq_map_discRow_one (maskOpt m sl)
  · intro row t
    rw [revCumsum_eq_discRow_one]
    exact (discRow_getD_continuous row t).tendsto 1

/-- C9 (deferred 2-D kernel needs two time steps): with one time step and a
discount other than 1, the deferred kernel's initializer slice
`reward[:, 1]` is out of bounds and graph construction fails, while the
eager kernel returns the reward unchanged (the loop body never runs). -/
theorem C9_deferred_needs_two_steps (m : List (List ℚ)) (d : ℚ) (hd : d ≠ 1)
    (h1 : numCols m = 1) (hrows : ∀ row ∈ m, row.length = 1) :
    _discount_reward_tensor_2d m none d = .error .sliceOutOfBounds ∧
    _discount_reward_py_2d m none d = m := by
  constructor
  · simp only [_discount_reward_tensor_2d, maskOpt]
    rw [if_neg hd, if_neg (by omega)]
  · simp only [_discount_reward_py_2d, maskOpt]
    rw [if_neg hd]
    have hid : ∀ row ∈ m, discRow d row = id row := by
      intro row hr
      rcases List.length_eq_one.mp (hrows row hr) with ⟨a, rfl⟩
      rfl
    rw [List.map_congr_left hid, List.map_id]

theorem C9_deferred_needs_two_steps_witness :
    _discount_reward_tensor_2d [[5]] none (1/2) = .error .sliceOutOfBounds ∧
    _discount_reward_py_2d [[5]] none (1/2) = [[5]] :=
  C9_deferred_needs_two_steps [[5]] (1/2) (by norm_num) rfl (by simp)

/-! ## Mode equivalence (claim C5) -/

/-- The deferred and eager 1-D kernels agree exactly, on every input. -/
lemma tensor1d_eq_py1d (r : List ℚ) (sl : Option (List ℕ)) (d : ℚ) :
    _discount_reward_tensor_1d r sl d = _discount_reward_py_1d r sl d := by
  cases sl with
  | none => rfl
  | some s =>
    simp only [_discount_reward_py_1d, _discount_reward_tensor_1d]
    congr 1
    apply List.map_congr_left
    intro p hp
    have hL : p.2 ≤ maxSeqLen s := le_maxSeqLen s p.2 (List.of_mem_zip hp).2
    have hX : (if d = 1 then List.replicate (maxSeqLen s) (1 : ℚ)
        else revCumprod ((List.range (maxSeqLen s)).map
          (fun t => if t + 1 < maxSeqLen s ∧ t + 1 < p.2 then d else 1))) =
        (if d = 1 then List.replicate (maxSeqLen s) (1 : ℚ)
        else revCumprod ((List.range (maxSeqLen s)).map
          (fun (t : ℕ) => if (t : ℤ) < (p.2 : ℤ) - 1 then d else 1))) := by
      by_cases hd : d = 1
      · rw [if_pos hd, if_pos hd]
      · rw [if_neg hd, if_neg hd, base_tensor_eq d p.2 (maxSeqLen s) hL, base_py_eq]
    rw [hX]

/-- The deferred 2-D kernel agrees with the eager one whenever it can build
its graph (discount 1, or at least two time steps after masking). -/
lemma tensor2d_eq_py2d (m : List (List ℚ)) (sl : Option (List ℕ)) (d : ℚ)
    (h : d = 1 ∨ 2 ≤ numCols (maskOpt m sl)) :
    _discount_reward_tensor_2d m sl d = .ok (_discount_reward_py_2d m sl d) := by
  simp only [_discount_reward_tensor_2d, _discount_reward_py_2d]
  by_cases hd : d = 1
  · rw [if_pos hd, if_pos hd]
  · rw [if_neg hd, if_neg hd, if_pos (h.resolve_left hd), map_scan_eq_map_discRow]

/-- C5 counterexample: on a 2-D reward with a single time step and discount
`1/2`, the eager kernel produces `[[1]]` while the deferred kernel fails at
graph construction, so the two modes do not produce equal results on every
identical input. -/
theorem C5_mode_equivalence_cex :
    _discount_reward_py_2d [[1]] none (1/2) = [[1]] ∧
    _discount_reward_tensor_2d [[1]] none (1/2) = .error .sliceOutOfBounds := by
  constructor
  · norm_num [_discount_reward_py_2d, maskOpt, discRow]
  · norm_num [_discount_reward_tensor_2d, maskOpt, numCols]

/-- C5 as amended: for identical inputs the eager and deferred paths produce
equal results — unconditionally for the 1-D kernels, and for the 2-D kernels
whenever the deferred kernel can build its graph at all, i.e. the discount
is 1 or the (masked) reward has at least 2 time steps (otherwise the
deferred kernel fails while the eager one succeeds, see the deferred
initializer slice `reward[:, 1]`). -/
theorem C5_mode_equivalence_amended (r : List ℚ) (m : List (List ℚ))
    (sl : Option (List ℕ)) (d : ℚ) (h : d = 1 ∨ 2 ≤ numCols (maskOpt m sl)) :
    _discount_reward_tensor_1d r sl d = _discount_reward_py_1d r sl d ∧
    _discount_reward_tensor_2d m sl d = .ok (_discount_reward_py_2d m sl d) :=
  ⟨tensor1d_eq_py1d r sl d, tensor2d_eq_py2d m sl d h⟩

theorem C5_mode_equivalence_amended_witness :
    _discount_reward_tensor_1d [1] none (1/2) = _discount_reward_py_1d [1] none (1/2) ∧
    _discount_reward_tensor_2d [[1, 2]] none (1/2) =
      .ok (_discount_reward_py_2d [[1, 2]] none (1/2)) :=
  C5_mode_equivalence_amended [1] [[1, 2]] none (1/2)
    (Or.inr (by norm_num [numCols, maskOpt]))

/-! ## Padded-position independence (claim C8) -/

lemma maskRowAux_ext (L : ℕ) (row1 : List ℚ) :
    ∀ (row2 : List ℚ) (t : ℕ), row1.length = row2.length →
      (∀ i, t + i < L → row1.getD i 0 = row2.getD i 0) →
      maskRowAux t L row1 = maskRowAux t L row2 := by
  induction row1 with
  | nil =>
    intro row2 t hlen _
    rw [List.length_nil] at hlen
    rw [List.eq_nil_of_length_eq_zero hlen.symm]
  | cons x xs ih =>
    intro row2 t hlen hag
    cases row2 with
    | nil => simp at hlen
    | cons y ys =>
      simp only [maskRowAux]
      congr 1
      · split_ifs with hc
        · simpa using hag 0 (by omega)
        · rfl
      · refine ih ys (t + 1) (by simpa using hlen) ?_
        intro i hi
        simpa using hag (i + 1) (by omega)

lemma mask_sequences_ext (m1 : List (List ℚ)) :
    ∀ (m2 : List (List ℚ)) (sl : List ℕ), m1.length = m2.length →
      (∀ r, (m1.getD r []).length = (m2.getD r []).length) →
      (∀ r t, t < sl.getD r 0 → (m1.getD r []).getD t 0 = (m2.getD r []).getD t 0) →
      mask_sequences m1 sl = mask_sequences m2 sl := by
  induction m1 with
  | nil =>
    intro m2 sl hlen _ _
    rw [List.length_nil] at hlen
    rw [List.eq_nil_of_length_eq_zero hlen.symm]
  | cons row1 m1 ih =>
    intro m2 sl hlen hrow hag
    cases m2 with
    | nil => simp at hlen
    | cons row2 m2 =>
      cases sl with
      | nil => rfl
      | cons L sl =>
        show maskRow row1 L :: mask_sequences m1 sl =
          maskRow row2 L :: mask_sequences m2 sl
        congr 1
        · refine maskRowAux_ext L row1 row2 0 (by simpa using hrow 0) ?_
          intro i hi
          simpa using hag 0 i (by simpa using hi)
        · refine ih m2 sl (by simpa using hlen) ?_ ?_
          · intro r
            simpa using hrow (r + 1)
          · intro r t ht
            simpa using hag (r + 1) t (by simpa using ht)

/-- C8 (padded reward never leaks): with `sequence_length` supplied, two 2-D
rewards of the same shape that agree at every position strictly below the
corresponding row's length yield identical outputs from both 2-D kernels,
for any discount — the input is masked before the recurrence. -/
theorem C8_padded_independence (m1 m2 : List (List ℚ)) (sl : List ℕ) (d : ℚ)
    (hB : m1.length = m2.length)
    (hrow : ∀ r, (m1.getD r []).length = (m2.getD r []).length)
    (hag : ∀ r t, t < sl.getD r 0 → (m1.getD r []).getD t 0 = (m2.getD r []).getD t 0) :
    _discount_reward_py_2d m1 (some sl) d = _discount_reward_py_2d m2 (some sl) d ∧
    _discount_reward_tensor_2d m1 (some sl) d = _discount_reward_tensor_2d m2 (some sl) d := by
  have hm : mask_sequences m1 sl = mask_sequences m2 sl :=
    mask_sequences_ext m1 m2 sl hB hrow hag
  constructor
  · simp only [_discount_reward_py_2d, maskOpt, hm]
  · simp only [_discount_reward_tensor_2d, maskOpt, hm]

theorem C8_padded_independence_witness :
    _discount_reward_py_2d [[1, 5]] (some [1]) (1/2) =
      _discount_reward_py_2d [[1, 7]] (some [1]) (1/2) ∧
    _discount_reward_tensor_2d [[1, 5]] (some [1]) (1/2) =
      _discount_reward_tensor_2d [[1, 7]] (some [1]) (1/2) := by
  refine C8_padded_independence [[1, 5]] [[1, 7]] [1] (1/2) rfl ?_ ?_
  · intro r
    cases r with
    | zero => rfl
    | succ r => rfl
  · intro r t ht
    cases r with
    | zero =>
      cases t with
      | zero => rfl
      | succ t =>
        rw [List.getD_cons_zero] at ht
        omega
    | succ r =>
      rw [List.getD_cons_succ, List.getD_nil] at ht
      omega

/-! ## Homogeneity in the reward (claim C10) -/

lemma revCumsum_map_mul (c : ℚ) (row : List ℚ) :
    revCumsum (row.map (fun x => c * x)) = (revCumsum row).map (fun x => c * x) := by
  rw [revCumsum_eq_discRow_one, revCumsum_eq_discRow_one, discRow_map_mul]

lemma mask_sequences_scale (c : ℚ) :
    ∀ (m : List (List ℚ)) (sl : List ℕ),
      mask_sequences (scaleMat c m) sl = scaleMat c (mask_sequences m sl)
  | [], _ => rfl
  | _ :: _, [] => rfl
  | row :: m, L :: sl => by
    show maskRow (row.map (fun x => c * x)) L :: mask_sequences (scaleMat c m) sl =
      (maskRow row L).map (fun x => c * x) :: scaleMat c (mask_sequences m sl)
    rw [maskRow_map_mul, mask_sequences_scale c m sl]

lemma maskOpt_scale (c : ℚ) (m : List (List ℚ)) (sl : Option (List ℕ)) :
    maskOpt (scaleMat c m) sl = scaleMat c (maskOpt m sl) := by
  cases sl with
  | none => rfl
  | some s => exact mask_sequences_scale c m s

lemma numCols_scale (c : ℚ) (m : List (List ℚ)) : numCols (scaleMat c m) = numCols m := by
  cases m <;> simp [numCols, scaleMat]

lemma map_scale_comm (c : ℚ) (f : List ℚ → List ℚ)
    (hf : ∀ row, f (row.map (fun x => c * x)) = (f row).map (fun x => c * x))
    (m : List (List ℚ)) : (scaleMat c m).map f = scaleMat c (m.map f) := by
  simp only [scaleMat, List.map_map]
  apply List.map_congr_left
  intro row _
  simpa using hf row

lemma py2d_scale (c : ℚ) (m : List (List ℚ)) (sl : Option (List ℕ)) (d : ℚ) :
    _discount_reward_py_2d (scaleMat c m) sl d =
      scaleMat c (_discount_reward_py_2d m sl d) := by
  simp only [_discount_reward_py_2d]
  rw [maskOpt_scale]
  split_ifs with hd
  · exact map_scale_comm c revCumsum (revCumsum_map_mul c) (maskOpt m sl)
  · exact map_scale_comm c (discRow d) (fun row => discRow_map_mul d c row) (maskOpt m sl)

lemma tensor2d_scale (c : ℚ) (m : List (List ℚ)) (sl : Option (List ℕ)) (d : ℚ) :
    _discount_reward_tensor_2d (scaleMat c m) sl d =
      Except.map (scaleMat c) (_discount_reward_tensor_2d m sl d) := by
  simp only [_discount_reward_tensor_2d]
  rw [maskOpt_scale, numCols_scale]
  split_ifs with hd hg
  · rw [map_scale_comm c revCumsum (revCumsum_map_mul c) (maskOpt m sl)]
    rfl
  · rw [map_scale_comm c (fun row => (scanRow d 0 row.reverse).reverse)
      (fun row => by
        show (scanRow d 0 (row.map (fun x => c * x)).reverse).reverse =
          ((scanRow d 0 row.reverse).reverse).map (fun x => c * x)
        rw [scanRow_reverse_eq_discRow, scanRow_reverse_eq_discRow, discRow_map_mul])
      (maskOpt m sl)]
    rfl
  · rfl

lemma zipmap_row_scale (c : ℚ) (W : ℕ → List ℚ) :
    ∀ (r : List ℚ) (s : List ℕ),
      ((r.map (fun x => c * x)).zip s).map
          (fun p => maskRow ((W p.2).map (fun v => v * p.1)) p.2) =
        scaleMat c ((r.zip s).map (fun p => maskRow ((W p.2).map (fun v => v * p.1)) p.2))
  | [], _ => rfl
  | _ :: _, [] => rfl
  | R :: r, L :: s => by
    show maskRow ((W L).map (fun v => v * (c * R))) L :: _ =
      (maskRow ((W L).map (fun v => v * R)) L).map (fun x => c * x) :: _
    congr 1
    · rw [← maskRow_map_mul]
      congr 1
      rw [List.map_map]
      apply List.map_congr_left
      intro v _
      simp only [Function.comp_apply]
      ring
    · exact zipmap_row_scale c W r s

lemma py1d_scale (c : ℚ) (r : List ℚ) (sl : Option (List ℕ)) (d : ℚ) :
    _discount_reward_py_1d (r.map (fun x => c * x)) sl d =
      Except.map (scaleMat c) (_discount_reward_py_1d r sl d) := by
  cases sl with
  | none => rfl
  | some s =>
    simp only [_discount_reward_py_1d]
    rw [zipmap_row_scale c (fun L => if d = 1 then List.replicate (maxSeqLen s) (1 : ℚ)
      else revCumprod ((List.range (maxSeqLen s)).map
        (fun (t : ℕ) => if (t : ℤ) < (L : ℤ) - 1 then d else 1))) r s]
    rfl

lemma tensor1d_scale (c : ℚ) (r : List ℚ) (sl : Option (List ℕ)) (d : ℚ) :
    _discount_reward_tensor_1d (r.map (fun x => c * x)) sl d =
      Except.map (scaleMat c) (_discount_reward_tensor_1d r sl d) := by
  cases sl with
  | none => rfl
  | some s =>
    simp only [_discount_reward_tensor_1d]
    rw [zipmap_row_scale c (fun L => if d = 1 then List.replicate (maxSeqLen s) (1 : ℚ)
      else revCumprod ((List.range (maxSeqLen s)).map
        (fun t => if t + 1 < maxSeqLen s ∧ t + 1 < L then d else 1))) r s]
    rfl

/-- C10 (homogeneity): with normalization off, scaling every reward entry by
a scalar `c` scales every entry of `discount_reward`'s output by `c`, in both
execution modes, for every `sequence_length`, discount and rank (covering the
fast and general paths of both kernels). -/
theorem C10_homogeneity (c : ℚ) (reward : PyReward) (sl : Option (List ℕ)) (d : ℚ)
    (tr : ℕ) :
    discount_reward_py (scalePy c reward) sl d =
      Except.map (scaleMat c) (discount_reward_py reward sl d) ∧
    discount_reward_tensor (scalePy c reward) sl d tr =
      Except.map (scaleMat c) (discount_reward_tensor reward sl d tr) := by
  constructor
  · cases reward with
    | rank0 x => rfl
    | rank1 r => exact py1d_scale c r sl d
    | rank2 m =>
      show Except.ok (_discount_reward_py_2d (scaleMat c m) sl d) = _
      rw [py2d_scale]
      rfl
    | rank3 t3 => rfl
  · by_cases h1 : tr = 1
    · subst h1
      cases reward with
      | rank1 r => exact tensor1d_scale c r sl d
      | rank0 x => cases sl <;> rfl
      | rank2 m => cases sl <;> rfl
      | rank3 t3 => cases sl <;> rfl
    · by_cases h2 : tr = 2
      · subst h2
        cases reward with
        | rank2 m => exact tensor2d_scale c m sl d
        | rank0 x => rfl
        | rank1 r => rfl
        | rank3 t3 => rfl
      · have e1 : discount_reward_tensor (scalePy c reward) sl d tr =
            .error .rankValueErrorTensor := by
          simp [discount_reward_tensor, h1, h2]
        have e2 : discount_reward_tensor reward sl d tr =
            .error .rankValueErrorTensor := by
          simp [discount_reward_tensor, h1, h2]
        rw [e1, e2]
        rfl

/-! ## Global normalization (claim C7) -/

lemma flat_normalizeStep (σ : ℚ) (m : List (List ℚ)) :
    flat (normalizeStep σ m) =
      (flat m).map (fun x => (x - gmean m) * (σ + stabilizer)⁻¹) := by
  unfold flat normalizeStep
  rw [← List.map_flatten]
  simp [div_eq_mul_inv]

lemma sum_map_sub_mul (l : List ℚ) (a b : ℚ) :
    (l.map (fun x => (x - a) * b)).sum = (l.sum - l.length * a) * b := by
  induction l with
  | nil => simp
  | cons x l ih =>
    simp only [List.map_cons, List.sum_cons, ih, List.length_cons]
    push_cast
    ring

lemma sum_map_sq_mul (l : List ℚ) (a b : ℚ) :
    (l.map (fun x => ((x - a) * b) ^ 2)).sum = (l.map (fun x => (x - a) ^ 2)).sum * b ^ 2 := by
  induction l with
  | nil => simp
  | cons x l ih =>
    simp only [List.map_cons, List.sum_cons, ih]
    ring

lemma flat_length_ne_zero (m : List (List ℚ)) (hn : flat m ≠ []) :
    ((flat m).length : ℚ) ≠ 0 := by
  have hpos : 0 < (flat m).length := List.length_pos.mpr hn
  exact_mod_cast Nat.pos_iff_ne_zero.mp hpos

lemma gmean_normalizeStep (σ : ℚ) (m : List (List ℚ)) (hn : flat m ≠ []) :
    gmean (normalizeStep σ m) = 0 := by
  have hlen := flat_length_ne_zero m hn
  rw [gmean, flat_normalizeStep, List.length_map, sum_map_sub_mul]
  have hz : (flat m).sum - (flat m).length * gmean m = 0 := by
    rw [gmean]
    field_simp
  rw [hz, zero_mul, zero_div]

lemma gvariance_normalizeStep (σ : ℚ) (m : List (List ℚ)) (hn : flat m ≠ [])
    (hs : σ + stabilizer ≠ 0) :
    gvariance (normalizeStep σ m) * (σ + stabilizer) ^ 2 = gvariance m := by
  have hlen := flat_length_ne_zero m hn
  rw [gvariance, gmean_normalizeStep σ m hn, flat_normalizeStep, List.length_map,
    List.map_map]
  have hcomp : ((fun x => (x - 0) ^ 2) ∘ fun x => (x - gmean m) * (σ + stabilizer)⁻¹) =
      fun x => ((x - gmean m) * (σ + stabilizer)⁻¹) ^ 2 := by
    funext x
    simp
  rw [hcomp, sum_map_sq_mul, gvariance]
  field_simp
  ring

/-- C7 (normalization): when `normalize` is set, `discount_reward` returns
its kernel output standardized globally — `(x - mean) / (std + 1e-8)` with
the mean and the population standard deviation `σ` (characterized by
`0 ≤ σ` and `σ ^ 2 = gvariance`) reduced over the whole batch-by-time
result — so the flattened normalized output has mean exactly 0 and
population variance `(σ / (σ + 1e-8)) ^ 2` (≈ 1 whenever `σ` dominates the
stabilizer); the reduction is global, not per-row or per-column, and
`normalizeStep` is the single post-step shared by both execution modes. -/
theorem C7_normalization (reward : PyReward) (sl : Option (List ℕ)) (d σ : ℚ)
    (m : List (List ℚ)) (_hm : discount_reward_py reward sl d = .ok m)
    (hn : flat m ≠ []) (hσ0 : 0 ≤ σ) (hσ : σ ^ 2 = gvariance m) :
    gmean (normalizeStep σ m) = 0 ∧
    gvariance (normalizeStep σ m) * (σ + stabilizer) ^ 2 = σ ^ 2 := by
  have hs : σ + stabilizer ≠ 0 := by
    have hst : (0 : ℚ) < stabilizer := by norm_num [stabilizer]
    intro hc
    nlinarith
  exact ⟨gmean_normalizeStep σ m hn,
    by rw [gvariance_normalizeStep σ m hn hs, hσ]⟩

theorem C7_normalization_witness :
    gmean (normalizeStep (1/2) [[3, 2]]) = 0 ∧
    gvariance (normalizeStep (1/2) [[3, 2]]) * ((1/2 : ℚ) + stabilizer) ^ 2 =
      (1/2 : ℚ) ^ 2 := by
  refine C7_normalization (.rank2 [[1, 2]]) none 1 (1/2) [[3, 2]] ?_ ?_ ?_ ?_
  · norm_num [discount_reward_py, _discount_reward_py_2d, maskOpt, revCumsum, cumsum]
  · simp [flat]
  · norm_num
  · norm_num [gvariance, gmean, flat]

end TexarRewards
